import Mathlib

/-!
# Verification of the wled-audio-server-rs core

A shallow embedding of the repository's core components, translated from
`src/dsp.rs` and `src/packet.rs`:

* the spectral analysis engine (`DspProcessor`): sample buffering with
  50% overlapping windows, per-window statistics, silence shortcut,
  adaptive gain control, log-spaced frequency binning and beat detection;
* the packet codec (`AudioSyncPacketV2.toBytes`): the fixed 44-byte
  little-endian WLED AudioSync V2 wire format;
* the UDP transport (`UdpSender.send`): multi-destination send with
  partial-failure tolerance and a rolling modulo-256 frame counter.

Modelling conventions:

* `f32` arithmetic is modelled exactly over `ℚ`; the claims verified here
  are structural (which formula is computed, in which order, with which
  state updates), not about rounding of individual IEEE operations.
* The forward FFT (windowing + `rustfft` + magnitude extraction,
  `dsp.rs` lines 200-214) and `f32::sqrt` are external numerical
  primitives; following the design note "the forward transform is an
  external numerical dependency ... any conforming implementation is
  substitutable", they are passed as parameters (`spectrum`, `sqrtA`).
  Likewise `powf` used once in the constructor is passed as its result
  `r` (the code computes `r = (6000/60)^(1/16) ≈ 1.3335 ≥ 1`).
* In the codec, an `f32` field is represented by its IEEE-754 bit
  pattern (a `Nat < 2^32`); `f32::to_le_bytes` is then exactly the
  little-endian base-256 digit decomposition of that pattern, which is
  how `packet.rs` treats the field (it never inspects the float's value).
* `UdpSocket.send_to` outcomes are abstracted as a predicate
  `sendTo : target → bytes → Bool` (success/failure per destination).
-/

/-! ## Packet codec (`src/packet.rs`) -/

/-- Little-endian 4-byte decomposition of a 32-bit word (models
`f32::to_le_bytes` applied to the field's IEEE-754 bit pattern). -/
def le4 (n : Nat) : List Nat :=
  [n % 256, n / 256 % 256, n / 65536 % 256, n / 16777216 % 256]

/-- Little-endian 2-byte decomposition of a 16-bit word (models
`u16::to_le_bytes`). -/
def le2 (n : Nat) : List Nat :=
  [n % 256, n / 256 % 256]

/-- V2 AudioSync packet (from `packet.rs`).  `f32` fields carry the
IEEE-754 bit pattern of the float; `u8`/`u16` fields carry the value. -/
structure AudioSyncPacketV2 where
  sample_raw : Nat
  sample_smth : Nat
  sample_peak : Nat
  fft_result : Fin 16 → Nat
  zero_crossing_count : Nat
  fft_magnitude : Nat
  fft_major_peak : Nat

namespace AudioSyncPacketV2

/-- `AudioSyncPacketV2::to_bytes`: serializes the packet into the fixed
44-byte WLED V2 layout.  Each `u8` store reduces modulo 256 (the field's
`u8` type in the Rust struct), each `f32`/`u16` store is the little-endian
byte decomposition. -/
def toBytes (p : AudioSyncPacketV2) (frame_counter : Nat) : List Nat :=
  -- Header: "00002\0", then two reserved zero bytes (pressure, unused)
  [48, 48, 48, 48, 50, 0, 0, 0]
    ++ le4 p.sample_raw                                   -- offset 8: sampleRaw (f32 LE)
    ++ le4 p.sample_smth                                  -- offset 12: sampleSmth (f32 LE)
    ++ [p.sample_peak % 256, frame_counter % 256]         -- offsets 16, 17
    ++ (List.ofFn fun i : Fin 16 => p.fft_result i % 256) -- offsets 18..33
    ++ le2 p.zero_crossing_count                          -- offset 34: zeroCrossingCount (u16 LE)
    ++ le4 p.fft_magnitude                                -- offset 36: FFT_Magnitude (f32 LE)
    ++ le4 p.fft_major_peak                               -- offset 40: FFT_MajorPeak (f32 LE)

end AudioSyncPacketV2

/-- Reassemble a 32-bit word from four consecutive little-endian bytes
(models `f32::from_le_bytes` on `buf[off..off+4]`, as the test receiver
does at offsets 8 and 12). -/
def readLe4 (bytes : List Nat) (off : Nat) : Nat :=
  bytes.getD off 0 + 256 * bytes.getD (off + 1) 0
    + 65536 * bytes.getD (off + 2) 0 + 16777216 * bytes.getD (off + 3) 0

/-- Reassemble a 16-bit word from two consecutive little-endian bytes
(models `u16::from_le_bytes`). -/
def readLe2 (bytes : List Nat) (off : Nat) : Nat :=
  bytes.getD off 0 + 256 * bytes.getD (off + 1) 0

/-! ## UDP transport (`src/packet.rs`, `UdpSender`) -/

/-- UDP sender state (from `packet.rs`).  A destination address is
abstracted as a `Nat`; the destination set is resolved once at
construction and never changes.  `frame_counter` is the rolling `u8`
sequence counter. -/
structure UdpSender where
  targets : List Nat
  frame_counter : Nat
  deriving DecidableEq

namespace UdpSender

/-- `UdpSender::new`: the counter starts at 0 with the resolved target
set (address discovery itself is an OS interaction outside the model). -/
def new (targets : List Nat) : UdpSender :=
  ⟨targets, 0⟩

/-- `UdpSender::send`: serialize the packet with the current counter,
attempt transmission to every target, succeed if any target succeeded,
and advance the counter (wrapping modulo 256, `u8::wrapping_add`) only
on success.  `sendTo t bytes` abstracts the outcome of
`socket.send_to(&bytes, t)` for destination `t`. -/
def send (st : UdpSender) (p : AudioSyncPacketV2) (sendTo : Nat → List Nat → Bool) :
    Bool × UdpSender :=
  let bytes := p.toBytes st.frame_counter
  let anySent := st.targets.foldl (fun acc t => acc || sendTo t bytes) false
  if anySent then
    (true, { st with frame_counter := (st.frame_counter + 1) % 256 })
  else
    (false, st)

/-- Iterated sends of the same packet under the same per-destination
outcomes (used to state the counter-wrap property). -/
def sendIter (st : UdpSender) (p : AudioSyncPacketV2) (sendTo : Nat → List Nat → Bool) :
    Nat → UdpSender
  | 0 => st
  | n + 1 => ((sendIter st p sendTo n).send p sendTo).2

end UdpSender

/-! ## Spectral analysis engine (`src/dsp.rs`) -/

/-- `FFT_SIZE`: the analysis window length. -/
def FFT_SIZE : Nat := 2048

/-- `HOP_SIZE`: the advance between consecutive windows (50% overlap). -/
def HOP_SIZE : Nat := 1024

/-- `NUM_BINS`: number of aggregated frequency bands. -/
def NUM_BINS : Nat := 16

/-- `FREQ_MIN` (Hz): lower audible bound for binning and peak search. -/
def FREQ_MIN : ℚ := 60

/-- `FREQ_MAX` (Hz): upper audible bound for binning and peak search. -/
def FREQ_MAX : ℚ := 6000

/-- `SILENCE_THRESHOLD`: the near-zero bound under which a window is
treated as silence. -/
def SILENCE_THRESHOLD : ℚ := 1 / 100000

/-- AGC attack blend weight of the old ceiling/floor (`AGC_ATTACK_OLD`). -/
def AGC_ATTACK_OLD : ℚ := 25 / 100

/-- AGC attack blend weight of the new extreme (`AGC_ATTACK_NEW`). -/
def AGC_ATTACK_NEW : ℚ := 75 / 100

/-- AGC release blend weight of the old ceiling/floor (`AGC_RELEASE_OLD`). -/
def AGC_RELEASE_OLD : ℚ := 90 / 100

/-- AGC release blend weight of the new extreme (`AGC_RELEASE_NEW`). -/
def AGC_RELEASE_NEW : ℚ := 10 / 100

/-- `BEAT_HISTORY`: capacity of the circular bass-energy history. -/
def BEAT_HISTORY : Nat := 50

/-- `BEAT_THRESHOLD`: beat fires when energy exceeds this multiple of
the history mean. -/
def BEAT_THRESHOLD : ℚ := 120 / 100

/-- `BEAT_FREQ_MIN` (Hz): lower bound of the beat-detection bass band. -/
def BEAT_FREQ_MIN : ℚ := 100

/-- `BEAT_FREQ_MAX` (Hz): upper bound of the beat-detection bass band. -/
def BEAT_FREQ_MAX : ℚ := 500

/-- `FFT_BIN_SCALE`: empirical magnitude normalization factor. -/
def FFT_BIN_SCALE : ℚ := 4194 / 100000

/-- `SAMPLE_SMOOTH_FACTOR`: exponential-moving-average weight of the old
smoothed level. -/
def SAMPLE_SMOOTH_FACTOR : ℚ := 7 / 10

/-- `f32::MAX`, the seed of the `fold(f32::MAX, f32::min)` computing the
frame minimum: `(2 - 2^-23) * 2^127`. -/
def F32_MAX : ℚ := 2 ^ 128 - 2 ^ 104

/-- `f32::round` followed by `as usize` on a non-negative value: round
half away from zero, i.e. `⌊q + 1/2⌋` for `q ≥ 0`. -/
def roundNat (q : ℚ) : Nat := (⌊q + 1 / 2⌋).toNat

/-- Output of DSP processing for one FFT frame (`DspFrame`).
Levels and spectral values are `f32` (here `ℚ`); `sample_peak` is the
`u8` beat flag; `fft_result` holds the 16 band bytes. -/
structure DspFrame where
  sample_raw : ℚ
  sample_smth : ℚ
  sample_peak : Nat
  fft_result : List Nat
  zero_crossing_count : Nat
  fft_magnitude : ℚ
  fft_major_peak : ℚ
  deriving DecidableEq

/-- Mutable state of `DspProcessor`.  The precomputed taper (`window`)
and FFT plan only feed the spectrum computation, which is abstracted as
the `spectrum` parameter of `processFrame`, so they are not part of the
state model. -/
structure DspProcessor where
  sample_rate : ℚ
  buffer : List ℚ
  bin_edges : List Nat
  agc_min : ℚ
  agc_max : ℚ
  sample_smth : ℚ
  beat_history : List ℚ
  beat_idx : Nat
  beat_freq_lo : Nat
  beat_freq_hi : Nat
  deriving DecidableEq

/-- The 17 log-spaced FFT bin-index edges computed by `DspProcessor::new`:
`bin_edges[i] = min(round(FREQ_MIN * ratio^i / freq_resolution), FFT_SIZE/2)`.
`r` is the value the code obtains for `ratio = (FREQ_MAX/FREQ_MIN).powf(1/16)`
(`powf` is an external numeric primitive; the code's value is ≈ 1.3335). -/
def binEdges (sr r : ℚ) : List Nat :=
  let freq_resolution := sr / (FFT_SIZE : ℚ)
  (List.range (NUM_BINS + 1)).map fun i =>
    min (roundNat (FREQ_MIN * r ^ i / freq_resolution)) (FFT_SIZE / 2)

namespace DspProcessor

/-- `DspProcessor::new`: precompute the bin edges and the bass-band index
range, start with an empty buffer, AGC floor 0 / ceiling 1, smoothed
level 0, and a zeroed 50-entry beat history. -/
def new (sample_rate : Nat) (r : ℚ) : DspProcessor :=
  let sr : ℚ := (sample_rate : ℚ)
  let freq_resolution := sr / (FFT_SIZE : ℚ)
  { sample_rate := sr
    buffer := []
    bin_edges := binEdges sr r
    agc_min := 0
    agc_max := 1
    sample_smth := 0
    beat_history := List.replicate BEAT_HISTORY 0
    beat_idx := 0
    beat_freq_lo := roundNat (BEAT_FREQ_MIN / freq_resolution)
    beat_freq_hi := roundNat (BEAT_FREQ_MAX / freq_resolution) }

/-- Maximum absolute sample value of the window (the `max_abs` tracking
of the statistics pass). -/
def maxAbs (samples : List ℚ) : ℚ :=
  samples.foldl (fun m s => if |s| > m then |s| else m) 0

/-- Zero-crossing count of the statistics pass: a sign change between
consecutive samples, a sample being "non-negative" when `s >= 0.0`;
`prev_sign` starts at the first sample's sign, so the first comparison
never counts.  (The code reads `samples[0]`; for the empty list — never
reached, windows have length `FFT_SIZE` — the model uses sign of 0.) -/
def zeroCrossings (samples : List ℚ) : Nat :=
  (samples.foldl
    (fun (p : Bool × Nat) s =>
      let sign := decide (0 ≤ s)
      (sign, if sign ≠ p.1 then p.2 + 1 else p.2))
    (decide (0 ≤ samples.headD 0), 0)).2

/-- The 16 raw band values (`raw_bins`): for band `i`, scan the magnitude
sub-range `bin_edges[i] .. max(bin_edges[i+1], lo+1)` capped at the
Nyquist index, take `sqrtA(magnitude)/FFT_BIN_SCALE` per index, and keep
the running maximum (seeded at 0). -/
def rawBins (sqrtA : ℚ → ℚ) (bin_edges : List Nat) (mags : List ℚ) : List ℚ :=
  let half := FFT_SIZE / 2
  (List.range NUM_BINS).map fun i =>
    let lo := bin_edges.getD i 0
    let hi := max (bin_edges.getD (i + 1) 0) (lo + 1)
    (List.range' lo (min hi half - lo)).foldl
      (fun bin_max j =>
        let val := sqrtA (mags.getD j 0) / FFT_BIN_SCALE
        if val > bin_max then val else bin_max)
      0

/-- The bass-band energy of the window: sum of squared magnitudes over
`magnitudes[beat_freq_lo .. min(beat_freq_hi, half)]`. -/
def beatEnergy (lo hi : Nat) (mags : List ℚ) : ℚ :=
  (((mags.drop lo).take (min hi (FFT_SIZE / 2) - lo)).map fun m => m * m).foldl (· + ·) 0

/-- `DspProcessor::process_frame`, one window's processing.

`spectrum` abstracts lines 200-214 of `dsp.rs` (taper multiplication,
forward FFT of the window and complex magnitude per output index); the
code then keeps the first `FFT_SIZE/2` magnitudes.  `sqrtA` abstracts
`f32::sqrt`.

Steps, in source order: statistics pass (`max_abs`, zero crossings),
`sample_raw = min(max_abs * 255, 255)`, EMA update of `sample_smth`,
silence shortcut, peak search over the audible range, 16-band
aggregation, asymmetric AGC update, normalization to bytes, and beat
detection with insert-before-average history. -/
def processFrame (spectrum : List ℚ → List ℚ) (sqrtA : ℚ → ℚ)
    (st : DspProcessor) (samples : List ℚ) : Option (DspProcessor × DspFrame) :=
  let max_abs := maxAbs samples
  let sample_raw := min (max_abs * 255) 255
  let smth := st.sample_smth * SAMPLE_SMOOTH_FACTOR + sample_raw * (1 - SAMPLE_SMOOTH_FACTOR)
  if max_abs < SILENCE_THRESHOLD then
    some ({ st with sample_smth := smth },
      { sample_raw := 0
        sample_smth := smth
        sample_peak := 0
        fft_result := List.replicate NUM_BINS 0
        zero_crossing_count := 0
        fft_magnitude := 0
        fft_major_peak := 0 })
  else
    let half := FFT_SIZE / 2
    let magnitudes := (spectrum samples).take half
    -- Major peak search restricted to FREQ_MIN..FREQ_MAX
    let freq_resolution := st.sample_rate / (FFT_SIZE : ℚ)
    let search_lo := roundNat (FREQ_MIN / freq_resolution)
    let search_hi := roundNat (FREQ_MAX / freq_resolution)
    let peak := (List.range' search_lo (min search_hi half - search_lo)).foldl
      (fun (p : ℚ × Nat) i =>
        if magnitudes.getD i 0 > p.1 then (magnitudes.getD i 0, i) else p)
      (0, 0)
    let fft_major_peak := (peak.2 : ℚ) * freq_resolution
    let fft_magnitude := peak.1
    -- 16 log-spaced bins
    let raw_bins := rawBins sqrtA st.bin_edges magnitudes
    -- AGC: asymmetric attack/release smoothing
    let frame_max := raw_bins.foldl (fun a b => max a b) 0
    let frame_min := raw_bins.foldl (fun a b => min a b) F32_MAX
    let agc_max' :=
      if frame_max > st.agc_max then
        st.agc_max * AGC_ATTACK_OLD + frame_max * AGC_ATTACK_NEW
      else
        st.agc_max * AGC_RELEASE_OLD + frame_max * AGC_RELEASE_NEW
    let agc_min' :=
      if frame_min < st.agc_min then
        st.agc_min * AGC_ATTACK_OLD + frame_min * AGC_ATTACK_NEW
      else
        st.agc_min * AGC_RELEASE_OLD + frame_min * AGC_RELEASE_NEW
    let span := max (agc_max' - agc_min') 1
    -- Normalize bins to 0..255 bytes (`as u8` truncates the clamped value)
    let fft_result := raw_bins.map fun raw =>
      (⌊min (max ((raw - agc_min') / span * 255) 0) 255⌋).toNat
    -- Beat detection: insert current energy, then average over the history
    let beat_energy := beatEnergy st.beat_freq_lo st.beat_freq_hi magnitudes
    let beat_history' := st.beat_history.set st.beat_idx beat_energy
    let beat_idx' := (st.beat_idx + 1) % BEAT_HISTORY
    let avg_energy := beat_history'.foldl (· + ·) 0 / (BEAT_HISTORY : ℚ)
    let sample_peak := if beat_energy > avg_energy * BEAT_THRESHOLD then 1 else 0
    some ({ st with
              sample_smth := smth
              agc_min := agc_min'
              agc_max := agc_max'
              beat_history := beat_history'
              beat_idx := beat_idx' },
      { sample_raw := sample_raw
        sample_smth := smth
        sample_peak := sample_peak
        fft_result := fft_result
        zero_crossing_count := zeroCrossings samples
        fft_magnitude := fft_magnitude
        fft_major_peak := fft_major_peak })

/-- The `while self.buffer.len() >= FFT_SIZE` loop of `push_samples`:
extract the leading window, drain `HOP_SIZE` samples (50% overlap),
process the window and append the resulting frame. -/
def pushLoop (spectrum : List ℚ → List ℚ) (sqrtA : ℚ → ℚ)
    (st : DspProcessor) (acc : List DspFrame) : DspProcessor × List DspFrame :=
  if h : FFT_SIZE ≤ st.buffer.length then
    match hp : processFrame spectrum sqrtA
        { st with buffer := st.buffer.drop HOP_SIZE } (st.buffer.take FFT_SIZE) with
    | some (st', fr) => pushLoop spectrum sqrtA st' (acc ++ [fr])
    | none => pushLoop spectrum sqrtA { st with buffer := st.buffer.drop HOP_SIZE } acc
  else (st, acc)
termination_by st.buffer.length
decreasing_by
  · have hb : st'.buffer = st.buffer.drop HOP_SIZE := by
      simp only [processFrame] at hp
      split at hp <;>
        · simp only [Option.some.injEq, Prod.mk.injEq] at hp
          rw [← hp.1]
    simp only [hb, List.length_drop, FFT_SIZE, HOP_SIZE] at *
    omega
  · simp only [List.length_drop, FFT_SIZE, HOP_SIZE] at *
    omega

/-- `DspProcessor::push_samples`: append the chunk to the accumulation
buffer, then run the analysis loop. -/
def pushSamples (spectrum : List ℚ → List ℚ) (sqrtA : ℚ → ℚ)
    (st : DspProcessor) (samples : List ℚ) : DspProcessor × List DspFrame :=
  pushLoop spectrum sqrtA { st with buffer := st.buffer ++ samples } []

/-- Number of frames one `push_samples` call emits when the appended
buffer holds `L` samples: zero below one window, then one per hop. -/
def numFrames (L : Nat) : Nat :=
  if L < FFT_SIZE then 0 else (L - FFT_SIZE) / HOP_SIZE + 1

end DspProcessor

/-! ## Concrete instances used by witnesses -/

/-- A concrete all-zero packet. -/
def pkt0 : AudioSyncPacketV2 :=
  ⟨0, 0, 0, fun _ => 0, 0, 0, 0⟩

/-- A concrete stand-in for the spectrum primitive (constant zero
spectrum), used to instantiate theorems at concrete inputs. -/
def spectrum0 : List ℚ → List ℚ := fun _ => []

/-- A concrete stand-in for the square-root primitive, used to
instantiate theorems at concrete inputs. -/
def sqrt0 : ℚ → ℚ := fun _ => 0

/-! ## Helper lemmas -/

/-- The `foldl`-accumulated "any destination succeeded" flag of the send
loop is `true` exactly when some target's transmission succeeded. -/
theorem foldl_or_eq_any (f : Nat → Bool) (l : List Nat) (b : Bool) :
    l.foldl (fun acc t => acc || f t) b = (b || l.any f) := by
  induction l generalizing b with
  | nil => simp
  | cons x xs ih => simp [List.foldl_cons, ih, Bool.or_assoc]

namespace DspProcessor

/-- `process_frame` never touches the accumulation buffer: both the
silence branch and the full analysis branch return the state with the
buffer it was given. -/
theorem processFrame_buffer (spectrum : List ℚ → List ℚ) (sqrtA : ℚ → ℚ)
    (st : DspProcessor) (samples : List ℚ) (st' : DspProcessor) (fr : DspFrame)
    (h : processFrame spectrum sqrtA st samples = some (st', fr)) :
    st'.buffer = st.buffer := by
  simp only [processFrame] at h
  split at h <;>
    · simp only [Option.some.injEq, Prod.mk.injEq] at h
      rw [← h.1]

/-- `process_frame` always returns a frame (both branches are `Some`). -/
theorem processFrame_isSome (spectrum : List ℚ → List ℚ) (sqrtA : ℚ → ℚ)
    (st : DspProcessor) (samples : List ℚ) :
    ∃ st' fr, processFrame spectrum sqrtA st samples = some (st', fr) := by
  simp only [processFrame]
  split <;> exact ⟨_, _, rfl⟩

theorem numFrames_step {L : Nat} (h : FFT_SIZE ≤ L) :
    numFrames L = numFrames (L - HOP_SIZE) + 1 := by
  unfold numFrames FFT_SIZE HOP_SIZE at *
  split <;> split <;> omega

/-- Loop invariant of `pushLoop`: it appends `numFrames` frames to the
accumulator and drops `HOP_SIZE` buffered samples per emitted frame. -/
theorem pushLoop_spec (spectrum : List ℚ → List ℚ) (sqrtA : ℚ → ℚ)
    (st : DspProcessor) (acc : List DspFrame) :
    (pushLoop spectrum sqrtA st acc).2.length
        = acc.length + numFrames st.buffer.length
      ∧ (pushLoop spectrum sqrtA st acc).1.buffer
        = st.buffer.drop (HOP_SIZE * numFrames st.buffer.length) := by
  generalize hn : st.buffer.length = n
  induction n using Nat.strong_induction_on generalizing st acc with
  | _ n ih =>
    rw [pushLoop]
    by_cases h : FFT_SIZE ≤ st.buffer.length
    · obtain ⟨st', fr, hp⟩ := processFrame_isSome spectrum sqrtA
        { st with buffer := st.buffer.drop HOP_SIZE } (st.buffer.take FFT_SIZE)
      have hb : st'.buffer = st.buffer.drop HOP_SIZE :=
        processFrame_buffer _ _ _ _ _ _ hp
      rw [dif_pos h, hp]
      have hlen : st'.buffer.length = n - HOP_SIZE := by
        rw [hb, List.length_drop, hn]
      have hlt : n - HOP_SIZE < n := by
        unfold FFT_SIZE at h; unfold HOP_SIZE; omega
      obtain ⟨ih1, ih2⟩ := ih (n - HOP_SIZE) hlt st' (acc ++ [fr]) hlen
      have hstep : numFrames n = numFrames (n - HOP_SIZE) + 1 :=
        numFrames_step (hn ▸ h)
      constructor
      · rw [ih1, List.length_append, hstep]
        simp; omega
      · have harith : HOP_SIZE + HOP_SIZE * numFrames (n - HOP_SIZE)
            = HOP_SIZE * (numFrames (n - HOP_SIZE) + 1) := by ring
        rw [ih2, hb, List.drop_drop, harith, hstep]
    · rw [dif_neg h]
      have h0 : numFrames n = 0 := by
        unfold numFrames; rw [if_pos]; omega
      simp [h0]

end DspProcessor

/-! ## Claims -/

/-- C6: For every Frame and every counter byte, encoding is a pure total
function that returns exactly 44 bytes in little-endian layout: bytes 0-5
are the protocol header `"00002"` followed by a zero byte, bytes 6-7 are
zero, raw level as 32-bit float at offset 8, smoothed level at 12, beat
flag byte at 16, the counter byte at 17, the 16 band bytes at 18-33,
zero-crossing count as 16-bit unsigned at 34, peak magnitude as 32-bit
float at 36, and peak frequency as 32-bit float at 40; every entry is a
byte, so encoding never fails. -/
theorem claim_C6_toBytes_layout (p : AudioSyncPacketV2) (c : Nat) :
    (p.toBytes c).length = 44
      ∧ (p.toBytes c).take 6 = [48, 48, 48, 48, 50, 0]
      ∧ (p.toBytes c).getD 6 0 = 0
      ∧ (p.toBytes c).getD 7 0 = 0
      ∧ ((p.toBytes c).drop 8).take 4 = le4 p.sample_raw
      ∧ ((p.toBytes c).drop 12).take 4 = le4 p.sample_smth
      ∧ (p.toBytes c).getD 16 0 = p.sample_peak % 256
      ∧ (p.toBytes c).getD 17 0 = c % 256
      ∧ (∀ i : Fin 16, (p.toBytes c).getD (18 + i.val) 0 = p.fft_result i % 256)
      ∧ ((p.toBytes c).drop 34).take 2 = le2 p.zero_crossing_count
      ∧ ((p.toBytes c).drop 36).take 4 = le4 p.fft_magnitude
      ∧ ((p.toBytes c).drop 40).take 4 = le4 p.fft_major_peak
      ∧ (p.toBytes c).all (fun b => decide (b < 256)) = true := by
  have he : p.toBytes c =
      [48, 48, 48, 48, 50, 0, 0, 0,
       p.sample_raw % 256, p.sample_raw / 256 % 256,
       p.sample_raw / 65536 % 256, p.sample_raw / 16777216 % 256,
       p.sample_smth % 256, p.sample_smth / 256 % 256,
       p.sample_smth / 65536 % 256, p.sample_smth / 16777216 % 256,
       p.sample_peak % 256, c % 256,
       p.fft_result 0 % 256, p.fft_result 1 % 256, p.fft_result 2 % 256,
       p.fft_result 3 % 256, p.fft_result 4 % 256, p.fft_result 5 % 256,
       p.fft_result 6 % 256, p.fft_result 7 % 256, p.fft_result 8 % 256,
       p.fft_result 9 % 256, p.fft_result 10 % 256, p.fft_result 11 % 256,
       p.fft_result 12 % 256, p.fft_result 13 % 256, p.fft_result 14 % 256,
       p.fft_result 15 % 256,
       p.zero_crossing_count % 256, p.zero_crossing_count / 256 % 256,
       p.fft_magnitude % 256, p.fft_magnitude / 256 % 256,
       p.fft_magnitude / 65536 % 256, p.fft_magnitude / 16777216 % 256,
       p.fft_major_peak % 256, p.fft_major_peak / 256 % 256,
       p.fft_major_peak / 65536 % 256, p.fft_major_peak / 16777216 % 256] := rfl
  refine ⟨rfl, rfl, rfl, rfl, rfl, rfl, rfl, rfl, ?_, rfl, rfl, rfl, ?_⟩
  · intro i
    fin_cases i <;> rfl
  · rw [he]
    simp only [List.all_cons, List.all_nil, Bool.and_eq_true, decide_eq_true_eq,
      and_true]
    omega

set_option maxHeartbeats 1000000 in
/-- C7: For every Frame with range-bounded field values and every counter
byte, decoding the 44-byte encoding at the specified offsets recovers raw
level, smoothed level, beat flag, all 16 band bytes, zero-crossing count,
peak magnitude, and peak frequency bit-exactly. -/
theorem claim_C7_roundtrip (p : AudioSyncPacketV2) (c : Nat)
    (h1 : p.sample_raw < 4294967296) (h2 : p.sample_smth < 4294967296)
    (h3 : p.sample_peak < 256) (h4 : ∀ i, p.fft_result i < 256)
    (h5 : p.zero_crossing_count < 65536)
    (h6 : p.fft_magnitude < 4294967296) (h7 : p.fft_major_peak < 4294967296) :
    readLe4 (p.toBytes c) 8 = p.sample_raw
      ∧ readLe4 (p.toBytes c) 12 = p.sample_smth
      ∧ (p.toBytes c).getD 16 0 = p.sample_peak
      ∧ (∀ i : Fin 16, (p.toBytes c).getD (18 + i.val) 0 = p.fft_result i)
      ∧ readLe2 (p.toBytes c) 34 = p.zero_crossing_count
      ∧ readLe4 (p.toBytes c) 36 = p.fft_magnitude
      ∧ readLe4 (p.toBytes c) 40 = p.fft_major_peak := by
  refine ⟨?_, ?_, ?_, ?_, ?_, ?_, ?_⟩
  · have e : readLe4 (p.toBytes c) 8
        = p.sample_raw % 256 + 256 * (p.sample_raw / 256 % 256)
          + 65536 * (p.sample_raw / 65536 % 256)
          + 16777216 * (p.sample_raw / 16777216 % 256) := rfl
    rw [e]; omega
  · have e : readLe4 (p.toBytes c) 12
        = p.sample_smth % 256 + 256 * (p.sample_smth / 256 % 256)
          + 65536 * (p.sample_smth / 65536 % 256)
          + 16777216 * (p.sample_smth / 16777216 % 256) := rfl
    rw [e]; omega
  · have e : (p.toBytes c).getD 16 0 = p.sample_peak % 256 := rfl
    rw [e]; omega
  · intro i
    have e : (p.toBytes c).getD (18 + i.val) 0 = p.fft_result i % 256 := by
      fin_cases i <;> rfl
    have hi := h4 i
    rw [e]; omega
  · have e : readLe2 (p.toBytes c) 34
        = p.zero_crossing_count % 256 + 256 * (p.zero_crossing_count / 256 % 256) := rfl
    rw [e]; omega
  · have e : readLe4 (p.toBytes c) 36
        = p.fft_magnitude % 256 + 256 * (p.fft_magnitude / 256 % 256)
          + 65536 * (p.fft_magnitude / 65536 % 256)
          + 16777216 * (p.fft_magnitude / 16777216 % 256) := rfl
    rw [e]; omega
  · have e : readLe4 (p.toBytes c) 40
        = p.fft_major_peak % 256 + 256 * (p.fft_major_peak / 256 % 256)
          + 65536 * (p.fft_major_peak / 65536 % 256)
          + 16777216 * (p.fft_major_peak / 16777216 % 256) := rfl
    rw [e]; omega

/-- Witness for C7: the round-trip theorem applied to a concrete packet
(raw level bits of 1.0f32, smoothed bits of -1.0f32, a beat, distinct
band bytes, and concrete remaining fields) with counter byte 7. -/
theorem claim_C7_roundtrip_witness :
    readLe4 ((AudioSyncPacketV2.mk 1065353216 3212836864 1 (fun i => i.val * 10)
        1234 5 6).toBytes 7) 8 = 1065353216 :=
  (claim_C7_roundtrip
    (AudioSyncPacketV2.mk 1065353216 3212836864 1 (fun i => i.val * 10) 1234 5 6) 7
    (by norm_num) (by norm_num) (by norm_num)
    (by intro i; fin_cases i <;> norm_num) (by norm_num) (by norm_num) (by norm_num)).1

/-- If some destination's transmission succeeds, `send` returns success
and advances the counter by one modulo 256. -/
theorem UdpSender.send_success (st : UdpSender) (p : AudioSyncPacketV2)
    (sendTo : Nat → List Nat → Bool)
    (h : ∃ t ∈ st.targets, sendTo t (p.toBytes st.frame_counter) = true) :
    st.send p sendTo =
      (true, { st with frame_counter := (st.frame_counter + 1) % 256 }) := by
  have ha : st.targets.any (fun t => sendTo t (p.toBytes st.frame_counter)) = true :=
    List.any_eq_true.mpr h
  simp only [UdpSender.send, foldl_or_eq_any, Bool.false_or, ha, if_true]

/-- If every destination's transmission fails, `send` returns failure
with the state unchanged. -/
theorem UdpSender.send_failure (st : UdpSender) (p : AudioSyncPacketV2)
    (sendTo : Nat → List Nat → Bool)
    (h : ∀ t ∈ st.targets, sendTo t (p.toBytes st.frame_counter) = false) :
    st.send p sendTo = (false, st) := by
  have ha : st.targets.any (fun t => sendTo t (p.toBytes st.frame_counter)) = false :=
    List.any_eq_false.mpr (by intro t ht; simp [h t ht])
  simp only [UdpSender.send, foldl_or_eq_any, Bool.false_or, ha, Bool.false_eq_true,
    if_false]

/-- `send` never changes the destination set. -/
theorem UdpSender.send_targets (st : UdpSender) (p : AudioSyncPacketV2)
    (sendTo : Nat → List Nat → Bool) :
    (st.send p sendTo).2.targets = st.targets := by
  simp only [UdpSender.send]
  split <;> rfl

/-- Under always-successful transmission, `n` iterated sends advance the
counter to `(c + n) % 256` and preserve the destination set. -/
theorem UdpSender.sendIter_counter (st : UdpSender) (p : AudioSyncPacketV2)
    (sendTo : Nat → List Nat → Bool)
    (hall : ∀ bytes, ∃ t ∈ st.targets, sendTo t bytes = true)
    (hc : st.frame_counter < 256) (n : Nat) :
    (st.sendIter p sendTo n).frame_counter = (st.frame_counter + n) % 256
      ∧ (st.sendIter p sendTo n).targets = st.targets := by
  induction n with
  | zero =>
    exact ⟨by simpa using (Nat.mod_eq_of_lt hc).symm, rfl⟩
  | succ n ih =>
    obtain ⟨ihc, iht⟩ := ih
    have hs : ∃ t ∈ (st.sendIter p sendTo n).targets,
        sendTo t (p.toBytes (st.sendIter p sendTo n).frame_counter) = true := by
      rw [iht]; exact hall _
    have hstep := UdpSender.send_success (st.sendIter p sendTo n) p sendTo hs
    refine ⟨?_, ?_⟩
    · show (((st.sendIter p sendTo n).send p sendTo).2).frame_counter = _
      rw [hstep, ihc]
      show ((st.frame_counter + n) % 256 + 1) % 256 = _
      omega
    · show (((st.sendIter p sendTo n).send p sendTo).2).targets = st.targets
      rw [hstep]
      exact iht

/-- C5: For every Transport state and packet, `send` transmits the
encoded bytes independently to every destination, continuing past
per-destination failures; it fails exactly when all destinations fail;
on every non-total-failure call it advances the rolling counter exactly
once modulo 256 (the destination set unchanged); and under consecutive
successful sends the counter starting at 0 reaches 255 after 255 sends
and wraps to 0 after the 256th. -/
theorem claim_C5_send_failure_iff_counter (st : UdpSender) (p : AudioSyncPacketV2)
    (sendTo : Nat → List Nat → Bool) (hc : st.frame_counter < 256) :
    ((st.send p sendTo).1 = false ↔
        ∀ t ∈ st.targets, sendTo t (p.toBytes st.frame_counter) = false)
      ∧ ((st.send p sendTo).1 = true →
          (st.send p sendTo).2.frame_counter = (st.frame_counter + 1) % 256
            ∧ (st.send p sendTo).2.targets = st.targets)
      ∧ ((∀ bytes, ∃ t ∈ st.targets, sendTo t bytes = true) →
          ∀ n, (st.sendIter p sendTo n).frame_counter = (st.frame_counter + n) % 256)
      ∧ ((∀ bytes, ∃ t ∈ st.targets, sendTo t bytes = true) → st.frame_counter = 0 →
          (st.sendIter p sendTo 255).frame_counter = 255
            ∧ (st.sendIter p sendTo 256).frame_counter = 0) := by
  refine ⟨⟨?_, ?_⟩, ?_, ?_, ?_⟩
  · intro hres t ht
    by_contra hf
    have htrue : sendTo t (p.toBytes st.frame_counter) = true := by
      cases hq : sendTo t (p.toBytes st.frame_counter)
      · exact absurd hq hf
      · rfl
    rw [UdpSender.send_success st p sendTo ⟨t, ht, htrue⟩] at hres
    exact Bool.true_eq_false.mp hres
  · intro hall
    rw [UdpSender.send_failure st p sendTo hall]
  · intro hres
    by_cases hs : ∃ t ∈ st.targets, sendTo t (p.toBytes st.frame_counter) = true
    · rw [UdpSender.send_success st p sendTo hs]
      exact ⟨rfl, rfl⟩
    · push_neg at hs
      have hall : ∀ t ∈ st.targets, sendTo t (p.toBytes st.frame_counter) = false := by
        intro t ht
        cases hq : sendTo t (p.toBytes st.frame_counter)
        · rfl
        · exact absurd hq (hs t ht)
      rw [UdpSender.send_failure st p sendTo hall] at hres
      exact absurd hres (by simp)
  · intro hall n
    exact (UdpSender.sendIter_counter st p sendTo hall hc n).1
  · intro hall h0
    have h1 := (UdpSender.sendIter_counter st p sendTo hall hc 255).1
    have h2 := (UdpSender.sendIter_counter st p sendTo hall hc 256).1
    rw [h0] at h1 h2
    norm_num at h1 h2
    exact ⟨h1, h2⟩

/-- Witness for C5: a sender with one reachable destination and counter
0; after 255 always-successful sends the counter reads 255, after 256 it
has wrapped to 0. -/
theorem claim_C5_send_failure_iff_counter_witness :
    (UdpSender.sendIter ⟨[5], 0⟩ pkt0 (fun _ _ => true) 255).frame_counter = 255
      ∧ (UdpSender.sendIter ⟨[5], 0⟩ pkt0 (fun _ _ => true) 256).frame_counter = 0 :=
  (claim_C5_send_failure_iff_counter ⟨[5], 0⟩ pkt0 (fun _ _ => true)
      (by norm_num)).2.2.2
    (fun bytes => ⟨5, by simp, rfl⟩) rfl

/-- C10: For every Transport state and packet, if transmission to every
destination fails, the Transport's state is unchanged: `send` returns
failure with the same state, the rolling counter is not advanced, and
the next send call encodes the same counter byte (offset 17) again. -/
theorem claim_C10_total_failure_state_unchanged (st : UdpSender)
    (p : AudioSyncPacketV2) (sendTo : Nat → List Nat → Bool)
    (hfail : ∀ t ∈ st.targets, sendTo t (p.toBytes st.frame_counter) = false) :
    st.send p sendTo = (false, st)
      ∧ (st.send p sendTo).2.frame_counter = st.frame_counter
      ∧ (p.toBytes (st.send p sendTo).2.frame_counter).getD 17 0
          = (p.toBytes st.frame_counter).getD 17 0 := by
  have h := UdpSender.send_failure st p sendTo hfail
  exact ⟨h, by rw [h], by rw [h]⟩

/-- Witness for C10: a sender with two unreachable destinations; the
failing send leaves the state (counter 9) untouched. -/
theorem claim_C10_total_failure_state_unchanged_witness :
    UdpSender.send ⟨[1, 2], 9⟩ pkt0 (fun _ _ => false) = (false, ⟨[1, 2], 9⟩) :=
  (claim_C10_total_failure_state_unchanged ⟨[1, 2], 9⟩ pkt0 (fun _ _ => false)
    (fun t _ => rfl)).1

/-- C1: For every Engine state and pushed chunk, `push_samples` appends
the chunk to the accumulation buffer and, while the buffered length is
at least the window size (2048), extracts the leading window, advances by
the hop size (1024) and appends one Frame: the number of emitted frames
is `numFrames` of the combined buffered length (zero below one window,
then one per hop), so pushing fewer than 2048 samples in total yields no
frame, exactly 2048 yields exactly one, and 2048 + 1024 yields exactly
two. -/
theorem claim_C1_push_framing (spectrum : List ℚ → List ℚ) (sqrtA : ℚ → ℚ)
    (st : DspProcessor) (chunk : List ℚ) :
    (DspProcessor.pushSamples spectrum sqrtA st chunk).2.length
        = DspProcessor.numFrames (st.buffer.length + chunk.length)
      ∧ (DspProcessor.pushSamples spectrum sqrtA st chunk).1.buffer
          = (st.buffer ++ chunk).drop
              (HOP_SIZE * DspProcessor.numFrames (st.buffer.length + chunk.length))
      ∧ (∀ n, DspProcessor.numFrames n = 0 ↔ n < FFT_SIZE)
      ∧ DspProcessor.numFrames FFT_SIZE = 1
      ∧ DspProcessor.numFrames (FFT_SIZE + HOP_SIZE) = 2 := by
  obtain ⟨h1, h2⟩ := DspProcessor.pushLoop_spec spectrum sqrtA
    { st with buffer := st.buffer ++ chunk } []
  refine ⟨?_, ?_, ?_, ?_, ?_⟩
  · simpa [DspProcessor.pushSamples, List.length_append] using h1
  · simpa [DspProcessor.pushSamples, List.length_append] using h2
  · intro n
    unfold DspProcessor.numFrames FFT_SIZE HOP_SIZE
    split <;> omega
  · unfold DspProcessor.numFrames FFT_SIZE HOP_SIZE
    norm_num
  · unfold DspProcessor.numFrames FFT_SIZE HOP_SIZE
    norm_num

/-- C9 counterexample: from a freshly constructed Engine, ingesting a
2560-sample chunk completes one window and retains 1536 buffered
samples, not the claimed window − hop = 1024. -/
theorem claim_C9_counterexample :
    (DspProcessor.pushSamples spectrum0 sqrt0 (DspProcessor.new 48000 (4 / 3))
        (List.replicate 2560 0)).1.buffer.length = 1536
      ∧ (1536 : Nat) ≠ FFT_SIZE - HOP_SIZE := by
  have h2 := (DspProcessor.pushLoop_spec spectrum0 sqrt0
    { DspProcessor.new 48000 (4 / 3) with
        buffer := (DspProcessor.new 48000 (4 / 3)).buffer ++ List.replicate 2560 0 }
    []).2
  have hb : ({ DspProcessor.new 48000 (4 / 3) with
      buffer := (DspProcessor.new 48000 (4 / 3)).buffer
        ++ List.replicate 2560 (0 : ℚ) }).buffer.length = 2560 := by
    show ((DspProcessor.new 48000 (4 / 3)).buffer ++ List.replicate 2560 (0 : ℚ)).length = 2560
    rw [List.length_append, List.length_replicate]
    rfl
  constructor
  · simp only [DspProcessor.pushSamples]
    rw [h2, List.length_drop, hb]
    decide
  · decide

/-- C9 (amended): after each ingestion the Engine retains every buffered
sample that was not consumed: all of them when the combined length `L`
stays below the window size, and `hop + ((L − window) mod hop)` samples —
always less than one window — once at least one window completed; in
particular exactly window − hop = 1024 samples whenever `L` is a
multiple of the hop size. -/
theorem claim_C9_amended_retained_remainder (spectrum : List ℚ → List ℚ)
    (sqrtA : ℚ → ℚ) (st : DspProcessor) (chunk : List ℚ) :
    (DspProcessor.pushSamples spectrum sqrtA st chunk).1.buffer.length
        = (if st.buffer.length + chunk.length < FFT_SIZE
            then st.buffer.length + chunk.length
            else HOP_SIZE + (st.buffer.length + chunk.length - FFT_SIZE) % HOP_SIZE)
      ∧ (FFT_SIZE ≤ st.buffer.length + chunk.length →
          (DspProcessor.pushSamples spectrum sqrtA st chunk).1.buffer.length < FFT_SIZE)
      ∧ (FFT_SIZE ≤ st.buffer.length + chunk.length →
          (st.buffer.length + chunk.length) % HOP_SIZE = 0 →
          (DspProcessor.pushSamples spectrum sqrtA st chunk).1.buffer.length
            = FFT_SIZE - HOP_SIZE) := by
  have h2 := (DspProcessor.pushLoop_spec spectrum sqrtA
    { st with buffer := st.buffer ++ chunk } []).2
  have hlen : (DspProcessor.pushSamples spectrum sqrtA st chunk).1.buffer.length
      = (st.buffer.length + chunk.length)
          - HOP_SIZE * DspProcessor.numFrames (st.buffer.length + chunk.length) := by
    simp only [DspProcessor.pushSamples]
    rw [h2, List.length_drop]
    simp [List.length_append]
  rw [hlen]
  unfold DspProcessor.numFrames FFT_SIZE HOP_SIZE
  refine ⟨?_, ?_, ?_⟩ <;> split <;> omega

/-- Witness for C9 (amended): pushing exactly one window's worth of
samples (2048, a hop multiple) into a fresh Engine retains exactly
window − hop = 1024 samples. -/
theorem claim_C9_amended_retained_remainder_witness :
    (DspProcessor.pushSamples spectrum0 sqrt0 (DspProcessor.new 48000 (4 / 3))
        (List.replicate 2048 0)).1.buffer.length = FFT_SIZE - HOP_SIZE := by
  have e0 : (DspProcessor.new 48000 (4 / 3)).buffer.length = 0 := rfl
  have e1 : (List.replicate 2048 (0 : ℚ)).length = 2048 := List.length_replicate _ _
  refine (claim_C9_amended_retained_remainder spectrum0 sqrt0
      (DspProcessor.new 48000 (4 / 3)) (List.replicate 2048 0)).2.2 ?_ ?_
  · rw [e0, e1]; decide
  · rw [e0, e1]; decide

/-- `roundNat` is monotone. -/
theorem roundNat_mono {a b : ℚ} (h : a ≤ b) : roundNat a ≤ roundNat b := by
  unfold roundNat
  have := Int.floor_le_floor (α := ℚ) (add_le_add_right h (1 / 2))
  omega

/-- C8: For every sample rate, the Engine's construction precomputes a
sequence of 17 frequency-bin edge indices that is non-decreasing, with
every edge bounded by the Nyquist index (window size / 2 = 1024),
delimiting exactly 16 bands, each of which scans at least one magnitude
index under the `max(edge[i+1], edge[i]+1)` rule (`r` is the constant
the code computes with `powf`, which is at least 1). -/
theorem claim_C8_bin_edges (sr r : ℚ) (hsr : 0 < sr) (hr : 1 ≤ r) :
    (binEdges sr r).length = NUM_BINS + 1
      ∧ List.Pairwise (· ≤ ·) (binEdges sr r)
      ∧ (∀ e ∈ binEdges sr r, e ≤ FFT_SIZE / 2)
      ∧ (∀ i : Fin NUM_BINS, (binEdges sr r).getD i.val 0
            < max ((binEdges sr r).getD (i.val + 1) 0)
                ((binEdges sr r).getD i.val 0 + 1))
      ∧ (∀ n : Nat, (DspProcessor.new n r).bin_edges = binEdges (n : ℚ) r) := by
  have hfres : (0 : ℚ) < sr / (FFT_SIZE : ℚ) :=
    div_pos hsr (by norm_num [FFT_SIZE])
  refine ⟨?_, ?_, ?_, ?_, fun n => rfl⟩
  · simp [binEdges, NUM_BINS]
  · simp only [binEdges]
    rw [List.pairwise_map]
    refine (List.pairwise_lt_range _).imp ?_
    intro a b hab
    have hpow : r ^ a ≤ r ^ b := pow_le_pow_right₀ hr (le_of_lt hab)
    have hnum : FREQ_MIN * r ^ a ≤ FREQ_MIN * r ^ b :=
      mul_le_mul_of_nonneg_left hpow (by norm_num [FREQ_MIN])
    have h1 : FREQ_MIN * r ^ a / (sr / (FFT_SIZE : ℚ))
        ≤ FREQ_MIN * r ^ b / (sr / (FFT_SIZE : ℚ)) :=
      (div_le_div_iff_of_pos_right hfres).mpr hnum
    exact min_le_min (roundNat_mono h1) le_rfl
  · intro e he
    simp only [binEdges, List.mem_map] at he
    obtain ⟨i, _, rfl⟩ := he
    exact min_le_right _ _
  · intro i
    exact lt_of_lt_of_le (Nat.lt_succ_self _) (le_max_right _ _)

/-- Witness for C8: the bin-edge properties at sample rate 48000 with
the concrete ratio 4/3. -/
theorem claim_C8_bin_edges_witness :
    (binEdges 48000 (4 / 3)).length = NUM_BINS + 1 :=
  (claim_C8_bin_edges 48000 (4 / 3) (by norm_num) (by norm_num)).1

/-- C2: For every window whose maximum absolute sample value is below
the silence threshold, processing emits a Frame with raw level 0, beat
flag false, all 16 band bytes 0, zero-crossing count 0, peak magnitude 0
and peak frequency 0, while the reported smoothed level equals the
exponential-moving-average update `smoothed*0.7 + raw_level*0.3` applied
to this window's raw level `min(max_abs*255, 255)`; the smoothing state
persists in the Engine (and all other state is untouched), so it keeps
decaying through silence. -/
theorem claim_C2_silence_frame (spectrum : List ℚ → List ℚ) (sqrtA : ℚ → ℚ)
    (st : DspProcessor) (samples : List ℚ)
    (hsil : DspProcessor.maxAbs samples < SILENCE_THRESHOLD) :
    DspProcessor.processFrame spectrum sqrtA st samples =
      some
        ({ st with sample_smth :=
            st.sample_smth * 0.7
              + min (DspProcessor.maxAbs samples * 255) 255 * 0.3 },
          { sample_raw := 0
            sample_smth := st.sample_smth * 0.7
              + min (DspProcessor.maxAbs samples * 255) 255 * 0.3
            sample_peak := 0
            fft_result := List.replicate 16 0
            zero_crossing_count := 0
            fft_magnitude := 0
            fft_major_peak := 0 }) := by
  simp only [DspProcessor.processFrame, if_pos hsil, Option.some.injEq, Prod.mk.injEq,
    DspProcessor.mk.injEq, DspFrame.mk.injEq, NUM_BINS]
  norm_num [SAMPLE_SMOOTH_FACTOR]

/-- Witness for C2: a fresh Engine fed one sub-threshold sample
(1/200000): the emitted frame is all zero except the smoothed level,
which decays by the EMA toward the tiny raw level 51/40000·(3/10). -/
theorem claim_C2_silence_frame_witness :
    DspProcessor.processFrame spectrum0 sqrt0 (DspProcessor.new 48000 (4 / 3))
        [1 / 200000] =
      some
        ({ DspProcessor.new 48000 (4 / 3) with sample_smth := 153 / 400000 },
          { sample_raw := 0
            sample_smth := 153 / 400000
            sample_peak := 0
            fft_result := List.replicate 16 0
            zero_crossing_count := 0
            fft_magnitude := 0
            fft_major_peak := 0 }) := by
  have hx : DspProcessor.maxAbs [1 / 200000] = 1 / 200000 := by
    unfold DspProcessor.maxAbs
    simp only [List.foldl_cons, List.foldl_nil]
    rw [abs_of_nonneg (by norm_num)]
    norm_num
  have hsm : (DspProcessor.new 48000 (4 / 3)).sample_smth = 0 := rfl
  have h := claim_C2_silence_frame spectrum0 sqrt0 (DspProcessor.new 48000 (4 / 3))
    [1 / 200000] (by rw [hx]; norm_num [SILENCE_THRESHOLD])
  rw [h, hx]
  simp only [Option.some.injEq, Prod.mk.injEq, DspProcessor.mk.injEq, DspFrame.mk.injEq,
    hsm, and_true, true_and]
  norm_num [min_def]

/-- A left fold of `max` never drops below its seed. -/
theorem le_foldl_max (l : List ℚ) (b : ℚ) : b ≤ l.foldl (fun a c => max a c) b := by
  induction l generalizing b with
  | nil => exact le_refl b
  | cons x xs ih => exact le_trans (le_max_left b x) (ih (max b x))

/-- A left fold of `max` dominates every list element. -/
theorem mem_le_foldl_max (l : List ℚ) (b x : ℚ) (hx : x ∈ l) :
    x ≤ l.foldl (fun a c => max a c) b := by
  induction l generalizing b with
  | nil => cases hx
  | cons y ys ih =>
    rcases List.mem_cons.mp hx with h | h
    · subst h
      exact le_trans (le_max_right b x) (le_foldl_max ys (max b x))
    · exact ih (max b y) h

/-- A left fold of `max` is its seed or one of the list elements. -/
theorem foldl_max_mem (l : List ℚ) (b : ℚ) :
    l.foldl (fun a c => max a c) b = b ∨ l.foldl (fun a c => max a c) b ∈ l := by
  induction l generalizing b with
  | nil => exact Or.inl rfl
  | cons x xs ih =>
    rcases ih (max b x) with h | h
    · rw [List.foldl_cons]
      rcases le_total b x with hbx | hxb
      · rw [h, max_eq_right hbx]
        exact Or.inr (List.mem_cons_self x xs)
      · rw [h, max_eq_left hxb]
        exact Or.inl rfl
    · exact Or.inr (List.mem_cons_of_mem x h)

/-- A left fold of `min` never exceeds its seed. -/
theorem foldl_min_le (l : List ℚ) (b : ℚ) : l.foldl (fun a c => min a c) b ≤ b := by
  induction l generalizing b with
  | nil => exact le_refl b
  | cons x xs ih => exact le_trans (ih (min b x)) (min_le_left b x)

/-- A left fold of `min` is below every list element. -/
theorem foldl_min_le_mem (l : List ℚ) (b x : ℚ) (hx : x ∈ l) :
    l.foldl (fun a c => min a c) b ≤ x := by
  induction l generalizing b with
  | nil => cases hx
  | cons y ys ih =>
    rcases List.mem_cons.mp hx with h | h
    · subst h
      exact le_trans (foldl_min_le ys (min b x)) (min_le_right b x)
    · exact ih (min b y) h

/-- A left fold of `min` is its seed or one of the list elements. -/
theorem foldl_min_mem (l : List ℚ) (b : ℚ) :
    l.foldl (fun a c => min a c) b = b ∨ l.foldl (fun a c => min a c) b ∈ l := by
  induction l generalizing b with
  | nil => exact Or.inl rfl
  | cons x xs ih =>
    rcases ih (min b x) with h | h
    · rw [List.foldl_cons]
      rcases le_total b x with hbx | hxb
      · rw [h, min_eq_left hbx]
        exact Or.inl rfl
      · rw [h, min_eq_right hxb]
        exact Or.inr (List.mem_cons_self x xs)
    · exact Or.inr (List.mem_cons_of_mem x h)

/-- The running-maximum fold of the band scan never drops below its seed. -/
theorem foldl_scan_ge (f : Nat → ℚ) (l : List Nat) (b : ℚ) :
    b ≤ l.foldl (fun acc j => if f j > acc then f j else acc) b := by
  induction l generalizing b with
  | nil => exact le_refl b
  | cons x xs ih =>
    refine le_trans ?_ (ih _)
    show b ≤ if f x > b then f x else b
    by_cases h : f x > b
    · rw [if_pos h]; exact le_of_lt h
    · rw [if_neg h]

/-- Every raw band value is non-negative (the scan maximum is seeded at 0). -/
theorem rawBins_nonneg (sqrtA : ℚ → ℚ) (edges : List Nat) (mags : List ℚ) :
    ∀ x ∈ DspProcessor.rawBins sqrtA edges mags, 0 ≤ x := by
  intro x hx
  simp only [DspProcessor.rawBins, List.mem_map] at hx
  obtain ⟨i, _, rfl⟩ := hx
  exact foldl_scan_ge _ _ 0

/-- There are exactly 16 raw band values. -/
theorem rawBins_length (sqrtA : ℚ → ℚ) (edges : List Nat) (mags : List ℚ) :
    (DspProcessor.rawBins sqrtA edges mags).length = NUM_BINS := by
  simp [DspProcessor.rawBins]

/-- C3: For every non-silent window, the window's bass energy — the sum
of squared spectral magnitudes over the fixed bass-band index range — is
inserted into the 50-entry circular history at the current write index
before the comparison mean is computed, and the emitted Frame's beat
flag is set if and only if that energy exceeds 1.20 times the mean of
the history including that insertion; this holds for arbitrary injected
spectra, independent of transform correctness. -/
theorem claim_C3_beat_flag (spectrum : List ℚ → List ℚ) (sqrtA : ℚ → ℚ)
    (st : DspProcessor) (samples : List ℚ)
    (hns : ¬ DspProcessor.maxAbs samples < SILENCE_THRESHOLD)
    (hlen : st.beat_history.length = BEAT_HISTORY)
    (hidx : st.beat_idx < BEAT_HISTORY) :
    ∃ st' fr,
      DspProcessor.processFrame spectrum sqrtA st samples = some (st', fr)
        ∧ DspProcessor.beatEnergy st.beat_freq_lo st.beat_freq_hi
              ((spectrum samples).take (FFT_SIZE / 2))
            = ((((spectrum samples).take (FFT_SIZE / 2)).drop st.beat_freq_lo).take
                (min st.beat_freq_hi (FFT_SIZE / 2) - st.beat_freq_lo)).foldl
                (fun a m => a + m * m) 0
        ∧ st'.beat_history
            = st.beat_history.set st.beat_idx
                (DspProcessor.beatEnergy st.beat_freq_lo st.beat_freq_hi
                  ((spectrum samples).take (FFT_SIZE / 2)))
        ∧ st'.beat_history.getD st.beat_idx 0
            = DspProcessor.beatEnergy st.beat_freq_lo st.beat_freq_hi
                ((spectrum samples).take (FFT_SIZE / 2))
        ∧ st'.beat_idx = (st.beat_idx + 1) % BEAT_HISTORY
        ∧ st'.beat_history.length = BEAT_HISTORY
        ∧ (fr.sample_peak = 1 ↔
            DspProcessor.beatEnergy st.beat_freq_lo st.beat_freq_hi
                ((spectrum samples).take (FFT_SIZE / 2))
              > st'.beat_history.sum / (BEAT_HISTORY : ℚ) * BEAT_THRESHOLD)
        ∧ (fr.sample_peak = 0 ↔
            ¬ DspProcessor.beatEnergy st.beat_freq_lo st.beat_freq_hi
                ((spectrum samples).take (FFT_SIZE / 2))
              > st'.beat_history.sum / (BEAT_HISTORY : ℚ) * BEAT_THRESHOLD) := by
  simp only [DspProcessor.processFrame, if_neg hns]
  refine ⟨_, _, rfl, ?_, rfl, ?_, rfl, ?_, ?_, ?_⟩
  · -- the fold of the energy accumulation is a left fold of the squares
    unfold DspProcessor.beatEnergy
    rw [List.foldl_map]
  · -- the insertion lands at the write index
    rw [List.getD_eq_getElem?_getD, List.getElem?_set_self]
    · rfl
    · rw [hlen]; exact hidx
  · rw [List.length_set, hlen]
  · rw [List.sum_eq_foldl]
    dsimp only
    split_ifs with hc
    · simpa using hc
    · simpa using hc
  · rw [List.sum_eq_foldl]
    dsimp only
    split_ifs with hc
    · simpa using hc
    · simpa using hc

/-- A concrete all-ones injected spectrum used by witnesses. -/
def spectrum1 : List ℚ → List ℚ := fun _ => List.replicate 2048 1

/-- Witness for C3: the beat-flag characterization instantiated at a
fresh Engine (sample rate 48000), the loud one-sample window `[1]`, and
an injected all-ones spectrum. -/
theorem claim_C3_beat_flag_witness :
    ∃ st' fr,
      DspProcessor.processFrame spectrum1 sqrt0 (DspProcessor.new 48000 (4 / 3)) [1]
          = some (st', fr)
        ∧ DspProcessor.beatEnergy (DspProcessor.new 48000 (4 / 3)).beat_freq_lo
              (DspProcessor.new 48000 (4 / 3)).beat_freq_hi
              ((spectrum1 [1]).take (FFT_SIZE / 2))
            = ((((spectrum1 [1]).take (FFT_SIZE / 2)).drop
                  (DspProcessor.new 48000 (4 / 3)).beat_freq_lo).take
                (min (DspProcessor.new 48000 (4 / 3)).beat_freq_hi (FFT_SIZE / 2)
                  - (DspProcessor.new 48000 (4 / 3)).beat_freq_lo)).foldl
                (fun a m => a + m * m) 0
        ∧ st'.beat_history
            = (DspProcessor.new 48000 (4 / 3)).beat_history.set
                (DspProcessor.new 48000 (4 / 3)).beat_idx
                (DspProcessor.beatEnergy (DspProcessor.new 48000 (4 / 3)).beat_freq_lo
                  (DspProcessor.new 48000 (4 / 3)).beat_freq_hi
                  ((spectrum1 [1]).take (FFT_SIZE / 2)))
        ∧ st'.beat_history.getD (DspProcessor.new 48000 (4 / 3)).beat_idx 0
            = DspProcessor.beatEnergy (DspProcessor.new 48000 (4 / 3)).beat_freq_lo
                (DspProcessor.new 48000 (4 / 3)).beat_freq_hi
                ((spectrum1 [1]).take (FFT_SIZE / 2))
        ∧ st'.beat_idx = ((DspProcessor.new 48000 (4 / 3)).beat_idx + 1) % BEAT_HISTORY
        ∧ st'.beat_history.length = BEAT_HISTORY
        ∧ (fr.sample_peak = 1 ↔
            DspProcessor.beatEnergy (DspProcessor.new 48000 (4 / 3)).beat_freq_lo
                (DspProcessor.new 48000 (4 / 3)).beat_freq_hi
                ((spectrum1 [1]).take (FFT_SIZE / 2))
              > st'.beat_history.sum / (BEAT_HISTORY : ℚ) * BEAT_THRESHOLD)
        ∧ (fr.sample_peak = 0 ↔
            ¬ DspProcessor.beatEnergy (DspProcessor.new 48000 (4 / 3)).beat_freq_lo
                (DspProcessor.new 48000 (4 / 3)).beat_freq_hi
                ((spectrum1 [1]).take (FFT_SIZE / 2))
              > st'.beat_history.sum / (BEAT_HISTORY : ℚ) * BEAT_THRESHOLD) := by
  refine claim_C3_beat_flag spectrum1 sqrt0 (DspProcessor.new 48000 (4 / 3)) [1] ?_ ?_ ?_
  · have hx : DspProcessor.maxAbs [1] = 1 := by
      unfold DspProcessor.maxAbs
      simp only [List.foldl_cons, List.foldl_nil]
      rw [abs_of_nonneg (by norm_num)]
      norm_num
    rw [hx]
    norm_num [SILENCE_THRESHOLD]
  · rw [show (DspProcessor.new 48000 (4 / 3)).beat_history
        = List.replicate BEAT_HISTORY (0 : ℚ) from rfl]
    exact List.length_replicate _ _
  · show 0 < BEAT_HISTORY
    norm_num [BEAT_HISTORY]

/-- C4: For every non-silent window, with `frame_max`/`frame_min` the
maximum and minimum of the 16 raw band values, the running ceiling is
updated to `0.25*old + 0.75*frame_max` when `frame_max` exceeds it and to
`0.90*old + 0.10*frame_max` otherwise; the running floor is updated by
the symmetric rule against `frame_min` (attack when `frame_min` is below
it); and each band byte is the truncation of
`clamp(((raw − floor)/span)*255, 0, 255)` with `span = max(ceiling −
floor, 1)`, both taken after this window's update. -/
theorem claim_C4_agc_update (spectrum : List ℚ → List ℚ) (sqrtA : ℚ → ℚ)
    (st : DspProcessor) (samples : List ℚ)
    (hns : ¬ DspProcessor.maxAbs samples < SILENCE_THRESHOLD)
    (hbound : ∀ x ∈ DspProcessor.rawBins sqrtA st.bin_edges
        ((spectrum samples).take (FFT_SIZE / 2)), x ≤ F32_MAX) :
    ∃ st' fr frame_max frame_min,
      DspProcessor.processFrame spectrum sqrtA st samples = some (st', fr)
        ∧ frame_max ∈ DspProcessor.rawBins sqrtA st.bin_edges
            ((spectrum samples).take (FFT_SIZE / 2))
        ∧ (∀ x ∈ DspProcessor.rawBins sqrtA st.bin_edges
            ((spectrum samples).take (FFT_SIZE / 2)), x ≤ frame_max)
        ∧ frame_min ∈ DspProcessor.rawBins sqrtA st.bin_edges
            ((spectrum samples).take (FFT_SIZE / 2))
        ∧ (∀ x ∈ DspProcessor.rawBins sqrtA st.bin_edges
            ((spectrum samples).take (FFT_SIZE / 2)), frame_min ≤ x)
        ∧ st'.agc_max = (if st.agc_max < frame_max
            then st.agc_max * 0.25 + frame_max * 0.75
            else st.agc_max * 0.90 + frame_max * 0.10)
        ∧ st'.agc_min = (if frame_min < st.agc_min
            then st.agc_min * 0.25 + frame_min * 0.75
            else st.agc_min * 0.90 + frame_min * 0.10)
        ∧ fr.fft_result = (DspProcessor.rawBins sqrtA st.bin_edges
            ((spectrum samples).take (FFT_SIZE / 2))).map (fun raw =>
              (⌊min (max ((raw - st'.agc_min)
                  / max (st'.agc_max - st'.agc_min) 1 * 255) 0) 255⌋).toNat) := by
  have hnonneg := rawBins_nonneg sqrtA st.bin_edges ((spectrum samples).take (FFT_SIZE / 2))
  have hne : DspProcessor.rawBins sqrtA st.bin_edges
      ((spectrum samples).take (FFT_SIZE / 2)) ≠ [] := by
    have := rawBins_length sqrtA st.bin_edges ((spectrum samples).take (FFT_SIZE / 2))
    intro hnil
    rw [hnil] at this
    norm_num [NUM_BINS] at this
  have hmaxmem : (DspProcessor.rawBins sqrtA st.bin_edges
        ((spectrum samples).take (FFT_SIZE / 2))).foldl (fun a b => max a b) 0
      ∈ DspProcessor.rawBins sqrtA st.bin_edges
        ((spectrum samples).take (FFT_SIZE / 2)) := by
    rcases foldl_max_mem (DspProcessor.rawBins sqrtA st.bin_edges
      ((spectrum samples).take (FFT_SIZE / 2))) 0 with h | h
    · obtain ⟨y, hy⟩ := List.exists_mem_of_ne_nil _ hne
      have h1 : y ≤ 0 := h ▸ mem_le_foldl_max _ 0 y hy
      have h2 : (0 : ℚ) ≤ y := hnonneg y hy
      rw [h]
      exact (le_antisymm h1 h2) ▸ hy
    · exact h
  have hminmem : (DspProcessor.rawBins sqrtA st.bin_edges
        ((spectrum samples).take (FFT_SIZE / 2))).foldl (fun a b => min a b) F32_MAX
      ∈ DspProcessor.rawBins sqrtA st.bin_edges
        ((spectrum samples).take (FFT_SIZE / 2)) := by
    rcases foldl_min_mem (DspProcessor.rawBins sqrtA st.bin_edges
      ((spectrum samples).take (FFT_SIZE / 2))) F32_MAX with h | h
    · obtain ⟨y, hy⟩ := List.exists_mem_of_ne_nil _ hne
      have h1 : F32_MAX ≤ y := h ▸ foldl_min_le_mem _ F32_MAX y hy
      have h2 : y ≤ F32_MAX := hbound y hy
      rw [h]
      exact (le_antisymm h2 h1).symm ▸ hy
    · exact h
  simp only [DspProcessor.processFrame, if_neg hns]
  refine ⟨_, _, _, _, rfl, hmaxmem, fun x hx => mem_le_foldl_max _ 0 x hx,
    hminmem, fun x hx => foldl_min_le_mem _ F32_MAX x hx, ?_, ?_, ?_⟩
  · dsimp only
    norm_num [AGC_ATTACK_OLD, AGC_ATTACK_NEW, AGC_RELEASE_OLD, AGC_RELEASE_NEW]
  · dsimp only
    norm_num [AGC_ATTACK_OLD, AGC_ATTACK_NEW, AGC_RELEASE_OLD, AGC_RELEASE_NEW]
  · dsimp only

/-- The band scan over a zero-valued spectrum stays at its zero seed. -/
theorem foldl_if_zero (l : List Nat) :
    l.foldl (fun (bin_max : ℚ) (_ : Nat) => if (0 : ℚ) > bin_max then 0 else bin_max) 0
      = 0 := by
  induction l with
  | nil => rfl
  | cons x xs ih => simpa using ih

/-- Witness for C4: the AGC characterization instantiated at a fresh
Engine, the loud one-sample window `[1]`, the empty injected spectrum
and the zero square root (all raw band values are then 0 ≤ f32::MAX). -/
theorem claim_C4_agc_update_witness :
    ∃ st' fr frame_max frame_min,
      DspProcessor.processFrame spectrum0 sqrt0 (DspProcessor.new 48000 (4 / 3)) [1]
          = some (st', fr)
        ∧ frame_max ∈ DspProcessor.rawBins sqrt0 (DspProcessor.new 48000 (4 / 3)).bin_edges
            ((spectrum0 [1]).take (FFT_SIZE / 2))
        ∧ (∀ x ∈ DspProcessor.rawBins sqrt0 (DspProcessor.new 48000 (4 / 3)).bin_edges
            ((spectrum0 [1]).take (FFT_SIZE / 2)), x ≤ frame_max)
        ∧ frame_min ∈ DspProcessor.rawBins sqrt0 (DspProcessor.new 48000 (4 / 3)).bin_edges
            ((spectrum0 [1]).take (FFT_SIZE / 2))
        ∧ (∀ x ∈ DspProcessor.rawBins sqrt0 (DspProcessor.new 48000 (4 / 3)).bin_edges
            ((spectrum0 [1]).take (FFT_SIZE / 2)), frame_min ≤ x)
        ∧ st'.agc_max = (if (DspProcessor.new 48000 (4 / 3)).agc_max < frame_max
            then (DspProcessor.new 48000 (4 / 3)).agc_max * 0.25 + frame_max * 0.75
            else (DspProcessor.new 48000 (4 / 3)).agc_max * 0.90 + frame_max * 0.10)
        ∧ st'.agc_min = (if frame_min < (DspProcessor.new 48000 (4 / 3)).agc_min
            then (DspProcessor.new 48000 (4 / 3)).agc_min * 0.25 + frame_min * 0.75
            else (DspProcessor.new 48000 (4 / 3)).agc_min * 0.90 + frame_min * 0.10)
        ∧ fr.fft_result = (DspProcessor.rawBins sqrt0
            (DspProcessor.new 48000 (4 / 3)).bin_edges
            ((spectrum0 [1]).take (FFT_SIZE / 2))).map (fun raw =>
              (⌊min (max ((raw - st'.agc_min)
                  / max (st'.agc_max - st'.agc_min) 1 * 255) 0) 255⌋).toNat) := by
  refine claim_C4_agc_update spectrum0 sqrt0 (DspProcessor.new 48000 (4 / 3)) [1] ?_ ?_
  · have hx : DspProcessor.maxAbs [1] = 1 := by
      unfold DspProcessor.maxAbs
      simp only [List.foldl_cons, List.foldl_nil]
      rw [abs_of_nonneg (by norm_num)]
      norm_num
    rw [hx]
    norm_num [SILENCE_THRESHOLD]
  · intro x hx
    simp only [DspProcessor.rawBins, List.mem_map] at hx
    obtain ⟨i, _, rfl⟩ := hx
    simp only [sqrt0, zero_div]
    rw [foldl_if_zero]
    norm_num [F32_MAX]
